import Mathlib

/-!
Verification of the status-bar part (`statusbarPart.ts`) and the goto-error
widget (`gotoErrorWidget.ts`) of this repository.

The TypeScript code is shallowly embedded:
* DOM elements are identified by `Nat` tokens; the only DOM state the
  status-bar logic observes is whether an element is CSS-shown or CSS-hidden
  (`dom.show`/`dom.hide`), modelled as a `Nat → Bool` map.
* The `IStorageService` is modelled by the value persisted under the single
  key the code uses (`workbench.statusbar.hidden`, global scope), plus a
  counter of write operations (`store`/`remove` calls).
* A JavaScript `Set<string>` is modelled as a duplicate-free `List String`
  in insertion order (`Set` iteration order is insertion order).
* `Array.prototype.sort` is stable (ECMAScript 2019); it is modelled by the
  stable `List.mergeSort` with the boolean predicate `comparator a b ≤ 0`.
-/

namespace Statusbar

/-- Model of `StatusbarAlignment` from `vs/platform/statusbar/common/statusbar`. -/
inductive StatusbarAlignment where
  | LEFT
  | RIGHT
deriving DecidableEq, Repr

/-- Model of `IStatusbarViewModelEntry` (statusbarPart.ts). The `container` field is a
DOM element, modelled by an identifying token. -/
structure IStatusbarViewModelEntry where
  id : String
  name : String
  alignment : StatusbarAlignment
  priority : Int
  container : Nat
deriving DecidableEq, Repr

/-- Model of `new Set(array)`: deduplicate, keeping the first occurrence of each
element, in order (later occurrences of an already-kept element are
dropped). -/
def setFromList : List String → List String
  | [] => []
  | x :: xs => x :: (setFromList xs).filter (fun y => y ≠ x)

/-- Model of `Set.add`: append if not already present (JS sets keep insertion order). -/
def setAdd (s : List String) (x : String) : List String :=
  if x ∈ s then s else s ++ [x]

/-- The slice of the `IStorageService` state the status bar uses: the value
persisted under `workbench.statusbar.hidden` in `StorageScope.GLOBAL`
(`none` when the key is absent), plus a count of `store`/`remove` calls. -/
structure Storage where
  hiddenEntries : Option (List String)
  writes : Nat
deriving DecidableEq, Repr

/-- Model of `storageService.store(HIDDEN_ENTRIES_KEY, JSON.stringify(values(hidden)), GLOBAL)`. -/
def Storage.store (st : Storage) (value : List String) : Storage :=
  { hiddenEntries := some value, writes := st.writes + 1 }

/-- Model of `storageService.remove(HIDDEN_ENTRIES_KEY, GLOBAL)`. -/
def Storage.removeKey (st : Storage) : Storage :=
  { hiddenEntries := none, writes := st.writes + 1 }

/-- Model of `StorageScope` from `vs/platform/storage/common/storage`. -/
inductive StorageScope where
  | GLOBAL
  | WORKSPACE
deriving DecidableEq, Repr

/-- Model of `IWorkspaceStorageChangeEvent` (key and scope). -/
structure IWorkspaceStorageChangeEvent where
  key : String
  scope : StorageScope
deriving DecidableEq, Repr

/-- Model of `StatusbarViewModel.HIDDEN_ENTRIES_KEY`. -/
def HIDDEN_ENTRIES_KEY : String := "workbench.statusbar.hidden"

/-- The state of a `StatusbarViewModel`: its `_entries` array, its `hidden`
set, the storage service it persists to, and the observable CSS
shown/hidden state of each DOM container element.
(`markFirstLastVisibleEntry` only toggles the decorative
`first-visible-item`/`last-visible-item` CSS classes and is not modelled.) -/
structure StatusbarViewModel where
  entries : List IStatusbarViewModelEntry
  hidden : List String
  storage : Storage
  visible : Nat → Bool

/-- Model of `restoreState`: parse the persisted value into a set; on a missing key
(or a parse error) fall back to the empty set. `new Set(hiddenArray)`
deduplicates keeping first occurrences. -/
def restoreState (storage : Storage) : List String :=
  match storage.hiddenEntries with
  | some hiddenArray => setFromList hiddenArray
  | none => []

/-- The view model as constructed: no entries, hidden set restored from
storage, all containers CSS-visible. -/
def StatusbarViewModel.initial (storage : Storage) : StatusbarViewModel :=
  { entries := [], hidden := restoreState storage, storage := storage
    visible := fun _ => true }

/-- Model of `isHidden(id)`. -/
def StatusbarViewModel.isHidden (s : StatusbarViewModel) (id : String) : Bool :=
  s.hidden.contains id

/-- Model of `updateVisibility(entry)` (the by-entry overload): CSS-show or CSS-hide
the entry's container according to `isHidden(entry.id)`. -/
def updateVisibilityEntry (s : StatusbarViewModel) (e : IStatusbarViewModelEntry) :
    StatusbarViewModel :=
  { s with visible := fun c =>
      if c = e.container then !(s.isHidden e.id) else s.visible c }

/-- Model of `updateVisibility(id)` (the by-identifier overload): update every entry
whose id matches. -/
def updateVisibilityId (s : StatusbarViewModel) (id : String) : StatusbarViewModel :=
  s.entries.foldl
    (fun acc e => if e.id = id then updateVisibilityEntry acc e else acc) s

/-- Model of `saveState`: persist the hidden set as a list when non-empty, otherwise
remove the key. -/
def StatusbarViewModel.saveState (s : StatusbarViewModel) : StatusbarViewModel :=
  if s.hidden.length > 0 then
    { s with storage := s.storage.store s.hidden }
  else
    { s with storage := s.storage.removeKey }

/-- Model of `hide(id)`. -/
def StatusbarViewModel.hide (s : StatusbarViewModel) (id : String) : StatusbarViewModel :=
  if s.hidden.contains id then s
  else
    let s1 := { s with hidden := setAdd s.hidden id }
    let s2 := updateVisibilityId s1 id
    s2.saveState

/-- Model of `show(id)` (`show` is a Lean keyword, hence the name `showId`). -/
def StatusbarViewModel.showId (s : StatusbarViewModel) (id : String) : StatusbarViewModel :=
  if s.hidden.contains id then
    let s1 := { s with hidden := s.hidden.erase id }
    let s2 := updateVisibilityId s1 id
    s2.saveState
  else s

/-- Model of `getEntries(alignment)`. -/
def StatusbarViewModel.getEntries (s : StatusbarViewModel) (alignment : StatusbarAlignment) :
    List IStatusbarViewModelEntry :=
  s.entries.filter (fun e => e.alignment = alignment)

/-- Model of `findEntry(container)`. -/
def StatusbarViewModel.findEntry (s : StatusbarViewModel) (container : Nat) :
    Option IStatusbarViewModelEntry :=
  s.entries.find? (fun e => e.container = container)

/-- The comparator passed to `this._entries.sort` in `sort()`. -/
def compareEntries (entryA entryB : IStatusbarViewModelEntry) : Int :=
  if entryA.alignment = entryB.alignment then
    entryB.priority - entryA.priority
  else if entryA.alignment = StatusbarAlignment.LEFT then
    -1
  else if entryB.alignment = StatusbarAlignment.LEFT then
    1
  else
    0

/-- Predicate: `a` may stay before `b` under the comparator (comparator value ≤ 0). -/
def entryLe (a b : IStatusbarViewModelEntry) : Bool :=
  compareEntries a b ≤ 0

/-- Model of `sort()`: `Array.prototype.sort` is a stable sort (ECMAScript 2019),
modelled by the stable `List.mergeSort`. -/
def sortEntries (l : List IStatusbarViewModelEntry) : List IStatusbarViewModelEntry :=
  l.mergeSort entryLe

/-- Model of `add(entry)`: push, update visibility of the new entry, sort. -/
def StatusbarViewModel.add (s : StatusbarViewModel) (entry : IStatusbarViewModelEntry) :
    StatusbarViewModel :=
  let s1 := { s with entries := s.entries ++ [entry] }
  let s2 := updateVisibilityEntry s1 entry
  { s2 with entries := sortEntries s2.entries }

/-- Model of `remove(entry)`: `indexOf` + `splice(index, 1)`, i.e. erase the first
occurrence if present. -/
def StatusbarViewModel.remove (s : StatusbarViewModel) (entry : IStatusbarViewModelEntry) :
    StatusbarViewModel :=
  { s with entries := s.entries.erase entry }

/-- Model of `onDidStorageChange(event)`: on a change of the hidden-entries key in
global scope, snapshot the current hidden set, reload it from storage,
compute the set of identifiers whose membership changed, and update
visibility once per changed identifier that has a registered entry. -/
def StatusbarViewModel.onDidStorageChange (s : StatusbarViewModel)
    (event : IWorkspaceStorageChangeEvent) : StatusbarViewModel :=
  if event.key = HIDDEN_ENTRIES_KEY ∧ event.scope = StorageScope.GLOBAL then
    -- Keep current hidden entries; reload latest state of hidden entries
    let currentlyHidden := s.hidden
    let s1 := { s with hidden := restoreState s.storage }
    -- ids now visible, then ids now hidden (built with Set.add semantics)
    let changed :=
      ((currentlyHidden.filter (fun id => !(s1.hidden.contains id))) ++
        (s1.hidden.filter (fun id => !(currentlyHidden.contains id)))).foldl setAdd []
    if changed.length > 0 then
      (s1.entries.foldl
        (fun (acc : StatusbarViewModel × List String) e =>
          if acc.2.contains e.id then
            (updateVisibilityId acc.1 e.id, acc.2.erase e.id)
          else acc)
        (s1, changed)).1
    else s1
  else s

/-- Model of `IStatusbarEntry`: the visual payload of a status entry. Only an opaque
stand-in for the payload is needed here (text; the remaining display fields
play no role in the verified logic). -/
structure IStatusbarEntry where
  text : String
deriving DecidableEq, Repr

/-- Model of `IPendingStatusbarEntry` (statusbarPart.ts). The `token` field models
JavaScript object identity of the pending record (used by the accessor's
`dispose`, which filters the queue by `!==`). -/
structure IPendingStatusbarEntry where
  id : String
  name : String
  entry : IStatusbarEntry
  alignment : StatusbarAlignment
  priority : Int
  token : Nat
deriving DecidableEq, Repr

/-- An item contributed to the statusbar registry
(`registry.items` in `createInitialStatusbarEntries`). -/
structure RegistryItem where
  id : String
  name : String
  alignment : StatusbarAlignment
  priority : Int
deriving DecidableEq, Repr

/-- The state of a `StatusbarPart`: whether `this.element` exists yet, the
pending-entry queue, the view model, and allocators for fresh DOM container
elements (`doCreateStatusItem`) and fresh pending-record identities. -/
structure PartState where
  element : Bool
  pendingEntries : List IPendingStatusbarEntry
  viewModel : StatusbarViewModel
  nextContainer : Nat
  nextToken : Nat

/-- Model of `doAddPendingEntry`: push onto the pending queue; the returned token
identifies the pending record for its accessor. -/
def doAddPendingEntry (st : PartState) (entry : IStatusbarEntry) (id name : String)
    (alignment : StatusbarAlignment) (priority : Int) : PartState × Nat :=
  ({ st with
      pendingEntries :=
        st.pendingEntries ++ [⟨id, name, entry, alignment, priority, st.nextToken⟩]
      nextToken := st.nextToken + 1 },
    st.nextToken)

/-- Model of `doAddEntry`: create a fresh container element (`doCreateStatusItem`) and
add the entry to the view model. (DOM insertion via
`appendOneStatusbarEntry` is not otherwise observable here.) -/
def doAddEntry (st : PartState) (id name : String) (alignment : StatusbarAlignment)
    (priority : Int) : PartState :=
  let itemContainer := st.nextContainer
  { st with
      viewModel := st.viewModel.add ⟨id, name, alignment, priority, itemContainer⟩
      nextContainer := st.nextContainer + 1 }

/-- Model of `addEntry`: queue as pending while the container element does not exist,
otherwise add to the view directly. -/
def PartState.addEntry (st : PartState) (entry : IStatusbarEntry) (id name : String)
    (alignment : StatusbarAlignment) (priority : Int) : PartState :=
  if !st.element then
    (doAddPendingEntry st entry id name alignment priority).1
  else
    doAddEntry st id name alignment priority

/-- The pending accessor's `dispose`, called before materialization:
`this.pendingEntries = this.pendingEntries.filter(entry => entry !== pendingEntry)`. -/
def disposePendingAccessor (st : PartState) (token : Nat) : PartState :=
  { st with pendingEntries := st.pendingEntries.filter (fun e => e.token ≠ token) }

/-- The `while (this.pendingEntries.length)` loop of
`createInitialStatusbarEntries`: shift the head and re-add it through
`addEntry` (the container now exists, so nothing is re-queued). -/
def drainPendingEntries : List IPendingStatusbarEntry → PartState → PartState
  | [], st => st
  | pending :: rest, st =>
      drainPendingEntries rest
        (PartState.addEntry { st with pendingEntries := rest }
          pending.entry pending.id pending.name pending.alignment pending.priority)

/-- Model of `createInitialStatusbarEntries`: realize registry-contributed items, then
fill in pending entries. -/
def createInitialStatusbarEntries (st : PartState) (registryItems : List RegistryItem) :
    PartState :=
  let st1 := registryItems.foldl
    (fun acc item => doAddEntry acc item.id item.name item.alignment item.priority) st
  drainPendingEntries st1.pendingEntries st1

/-- Model of `createContentArea`: record that the container element now exists, then
create the initial statusbar entries. -/
def createContentArea (st : PartState) (registryItems : List RegistryItem) : PartState :=
  createInitialStatusbarEntries { st with element := true } registryItems

/-- The actions produced by `getContextMenuActions`. -/
inductive ContextMenuAction where
  /-- `HideStatusbarEntryAction` for the entry under the mouse. -/
  | hideEntry (id : String)
  /-- `Separator`. -/
  | separator
  /-- `ToggleStatusbarEntryVisibilityAction`. -/
  | toggleEntryVisibility (id : String) (name : String)
  /-- The global `ToggleStatusbarVisibilityAction` ("Hide Status Bar"). -/
  | toggleStatusbarVisibility
deriving DecidableEq, Repr

/-- Model of `getContextMenuActions`. The walk up the DOM ancestor chain locating the
entry under the mouse is summarized by its result `statusEntryUnderMouse`.
The `handledEntries` set is created and consulted exactly as in the source
(which never inserts into it). -/
def getContextMenuActions (viewModel : StatusbarViewModel)
    (statusEntryUnderMouse : Option IStatusbarViewModelEntry) : List ContextMenuAction :=
  let actions : List ContextMenuAction :=
    match statusEntryUnderMouse with
    | some e => [ContextMenuAction.hideEntry e.id, ContextMenuAction.separator]
    | none => []
  let handledEntries : List String := []
  let result := viewModel.entries.foldl
    (fun (acc : List ContextMenuAction × List String) entry =>
      if acc.2.contains entry.id then acc
      else (acc.1 ++ [ContextMenuAction.toggleEntryVisibility entry.id entry.name], acc.2))
    (actions, handledEntries)
  result.1 ++ [ContextMenuAction.separator, ContextMenuAction.toggleStatusbarVisibility]

end Statusbar

namespace GotoError

/-- Model of `IRelatedInformation` from `vs/platform/markers/common/markers`
(resource modelled as its path string). -/
structure IRelatedInformation where
  resource : String
  startLineNumber : Nat
  startColumn : Nat
  message : String
deriving DecidableEq, Repr

/-- Model of `MarkerSeverity`. -/
inductive MarkerSeverity where
  | Hint
  | Info
  | Warning
  | Error
deriving DecidableEq, Repr

/-- The fields of `IMarker` used by the widget. Optional fields are `Option`;
`relatedInformation` is an optional array. -/
structure IMarker where
  severity : MarkerSeverity
  message : String
  source : Option String
  code : Option String
  relatedInformation : Option (List IRelatedInformation)
deriving DecidableEq, Repr

/-- Model of `message.split(/\r\n|\r|\n/g)`: split into lines, recognizing CRLF, CR
and LF separators (the regex prefers CRLF at a given position). -/
def splitMessageLines : List Char → List (List Char)
  | [] => [[]]
  | '\r' :: '\n' :: rest => [] :: splitMessageLines rest
  | '\r' :: rest => [] :: splitMessageLines rest
  | '\n' :: rest => [] :: splitMessageLines rest
  | c :: rest =>
      match splitMessageLines rest with
      | [] => [[c]]
      | line :: lines => (c :: line) :: lines

/-- Model of `isNonEmptyArray` from `vs/base/common/arrays`. -/
def isNonEmptyArray {α : Type} : Option (List α) → Bool
  | some (_ :: _) => true
  | _ => false

/-- The `MessageWidget` fields that determine layout: `_lines` and
`_longestLineLength`. -/
structure MessageWidget where
  lines : Nat
  longestLineLength : Nat
deriving DecidableEq, Repr

/-- Model of `MessageWidget.update(marker)`: `_lines` becomes the number of lines of
the message, plus — when related information is non-empty — one separator
line and one line per related-information entry; `_longestLineLength`
becomes the length of the longest message line. -/
def MessageWidget.update (_w : MessageWidget) (marker : IMarker) : MessageWidget :=
  let lines := splitMessageLines marker.message.data
  let messageLines := lines.length
  let longest := lines.foldl (fun acc line => max line.length acc) 0
  let totalLines :=
    if isNonEmptyArray marker.relatedInformation then
      messageLines + 1 + (marker.relatedInformation.getD []).length
    else
      messageLines
  { lines := totalLines, longestLineLength := longest }

/-- Model of `MessageWidget.getHeightInLines()`. -/
def MessageWidget.getHeightInLines (w : MessageWidget) : Nat :=
  min 17 w.lines

/-- Model of `MarkerNavigationWidget.computeRequiredHeight()`. -/
def computeRequiredHeight (message : MessageWidget) : Nat :=
  3 + message.getHeightInLines

/-- Model of `Position` from `vs/editor/common/core/position`. -/
structure Position where
  lineNumber : Nat
  column : Nat
deriving DecidableEq, Repr

/-- Model of `MarkerNavigationWidget.show(where, heightInLines)`:
`throw new Error('call showAtMarker')`. -/
def MarkerNavigationWidget.show (_pos : Position) (_heightInLines : Nat) :
    Except String Unit :=
  Except.error "call showAtMarker"

end GotoError

namespace Statusbar

/-! ### Basic lemmas about the view-model operations -/

theorem updateVisibilityEntry_entries (s : StatusbarViewModel) (e : IStatusbarViewModelEntry) :
    (updateVisibilityEntry s e).entries = s.entries := rfl

theorem updateVisibilityEntry_hidden (s : StatusbarViewModel) (e : IStatusbarViewModelEntry) :
    (updateVisibilityEntry s e).hidden = s.hidden := rfl

theorem updateVisibilityEntry_storage (s : StatusbarViewModel) (e : IStatusbarViewModelEntry) :
    (updateVisibilityEntry s e).storage = s.storage := rfl

/-- Complete description of the fold inside `updateVisibilityId`: only the
`visible` map changes, and it changes exactly at the containers of the
entries of `l` whose id matches. -/
theorem foldlUpdateVisibility_spec (id : String) (l : List IStatusbarViewModelEntry)
    (s0 : StatusbarViewModel) :
    (l.foldl (fun acc e => if e.id = id then updateVisibilityEntry acc e else acc) s0).entries
        = s0.entries ∧
    (l.foldl (fun acc e => if e.id = id then updateVisibilityEntry acc e else acc) s0).hidden
        = s0.hidden ∧
    (l.foldl (fun acc e => if e.id = id then updateVisibilityEntry acc e else acc) s0).storage
        = s0.storage ∧
    ∀ c : Nat,
      (l.foldl (fun acc e => if e.id = id then updateVisibilityEntry acc e else acc) s0).visible c
        = if c ∈ (l.filter (fun e => e.id = id)).map (fun e => e.container) then
            !(s0.hidden.contains id)
          else s0.visible c := by
  induction l generalizing s0 with
  | nil => exact ⟨rfl, rfl, rfl, fun c => by simp⟩
  | cons e l ih =>
    by_cases he : e.id = id
    · obtain ⟨ih1, ih2, ih3, ih4⟩ := ih (updateVisibilityEntry s0 e)
      refine ⟨by simpa [he] using ih1, by simpa [he] using ih2, by simpa [he] using ih3, ?_⟩
      intro c
      simp only [List.foldl_cons, if_pos he]
      rw [ih4 c]
      by_cases hc : c ∈ (l.filter (fun e => e.id = id)).map (fun e => e.container) <;>
        by_cases hce : c = e.container <;>
          simp [hc, hce, he, updateVisibilityEntry, StatusbarViewModel.isHidden]
    · obtain ⟨ih1, ih2, ih3, ih4⟩ := ih s0
      refine ⟨by simpa [he] using ih1, by simpa [he] using ih2, by simpa [he] using ih3, ?_⟩
      intro c
      simp only [List.foldl_cons, if_neg he]
      rw [ih4 c, List.filter_cons_of_neg (by simpa using he)]

theorem updateVisibilityId_entries (s : StatusbarViewModel) (id : String) :
    (updateVisibilityId s id).entries = s.entries :=
  (foldlUpdateVisibility_spec id s.entries s).1

theorem updateVisibilityId_hidden (s : StatusbarViewModel) (id : String) :
    (updateVisibilityId s id).hidden = s.hidden :=
  (foldlUpdateVisibility_spec id s.entries s).2.1

theorem updateVisibilityId_storage (s : StatusbarViewModel) (id : String) :
    (updateVisibilityId s id).storage = s.storage :=
  (foldlUpdateVisibility_spec id s.entries s).2.2.1

theorem updateVisibilityId_visible (s : StatusbarViewModel) (id : String) (c : Nat) :
    (updateVisibilityId s id).visible c
      = if c ∈ (s.entries.filter (fun e => e.id = id)).map (fun e => e.container) then
          !(s.hidden.contains id)
        else s.visible c :=
  (foldlUpdateVisibility_spec id s.entries s).2.2.2 c

theorem saveState_entries (s : StatusbarViewModel) :
    s.saveState.entries = s.entries := by
  unfold StatusbarViewModel.saveState
  split <;> rfl

theorem saveState_hidden (s : StatusbarViewModel) :
    s.saveState.hidden = s.hidden := by
  unfold StatusbarViewModel.saveState
  split <;> rfl

theorem saveState_visible (s : StatusbarViewModel) :
    s.saveState.visible = s.visible := by
  unfold StatusbarViewModel.saveState
  split <;> rfl

end Statusbar

namespace Statusbar

theorem hide_hidden (s : StatusbarViewModel) (id : String) :
    (s.hide id).hidden = setAdd s.hidden id := by
  unfold StatusbarViewModel.hide
  by_cases h : id ∈ s.hidden
  · simp [h, setAdd]
  · rw [if_neg (by simp [h])]
    rw [saveState_hidden, updateVisibilityId_hidden]

theorem showId_hidden (s : StatusbarViewModel) (id : String) :
    (s.showId id).hidden = s.hidden.erase id := by
  unfold StatusbarViewModel.showId
  by_cases h : id ∈ s.hidden
  · rw [if_pos (by simp [h])]
    rw [saveState_hidden, updateVisibilityId_hidden]
  · simp [h, List.erase_of_not_mem h]

/-- C10: `hide(id)` on an id already hidden, and `show(id)` on an id not
hidden, are complete no-ops — the returned state is the original state, with
the hidden set, every container's visibility, the persisted value and even
the storage write-counter unchanged — and consequently `hide` and `show` are
idempotent (idempotence of `show` uses that a JS `Set` holds no
duplicates). -/
theorem hide_show_noops_and_idempotent :
    (∀ (s : StatusbarViewModel) (id : String), id ∈ s.hidden → s.hide id = s) ∧
    (∀ (s : StatusbarViewModel) (id : String), id ∉ s.hidden → s.showId id = s) ∧
    (∀ (s : StatusbarViewModel) (id : String), (s.hide id).hide id = s.hide id) ∧
    (∀ (s : StatusbarViewModel) (id : String), s.hidden.Nodup →
      (s.showId id).showId id = s.showId id) := by
  have hideMem : ∀ (s : StatusbarViewModel) (id : String), id ∈ s.hidden → s.hide id = s := by
    intro s id h
    unfold StatusbarViewModel.hide
    simp [h]
  have showNotMem : ∀ (s : StatusbarViewModel) (id : String), id ∉ s.hidden →
      s.showId id = s := by
    intro s id h
    unfold StatusbarViewModel.showId
    simp [h]
  refine ⟨hideMem, showNotMem, ?_, ?_⟩
  · intro s id
    apply hideMem
    rw [hide_hidden]
    unfold setAdd
    by_cases h : id ∈ s.hidden <;> simp [h]
  · intro s id hnd
    by_cases h : id ∈ s.hidden
    · apply showNotMem
      rw [showId_hidden]
      intro hmem
      exact ((List.Nodup.mem_erase_iff hnd).mp hmem).1 rfl
    · rw [showNotMem s id h, showNotMem s id h]

/-- A concrete state with the single id `"a"` hidden. -/
def singleHiddenState : StatusbarViewModel :=
  ⟨[], ["a"], ⟨some ["a"], 0⟩, fun _ => true⟩

/-- Witness for `hide_show_noops_and_idempotent` at a concrete state. -/
theorem hide_show_noops_and_idempotent_witness :
    singleHiddenState.hide "a" = singleHiddenState ∧
    singleHiddenState.showId "b" = singleHiddenState ∧
    (singleHiddenState.showId "a").showId "a" = singleHiddenState.showId "a" :=
  ⟨hide_show_noops_and_idempotent.1 singleHiddenState "a" (by decide),
   hide_show_noops_and_idempotent.2.1 singleHiddenState "b" (by decide),
   hide_show_noops_and_idempotent.2.2.2 singleHiddenState "a" (by decide)⟩

theorem saveState_hiddenEntries (s : StatusbarViewModel) :
    (s.saveState).storage.hiddenEntries
      = (if s.hidden.isEmpty then none else some s.hidden) := by
  unfold StatusbarViewModel.saveState
  obtain ⟨es, h, st, v⟩ := s
  cases h <;> simp [Storage.store, Storage.removeKey]

/-- C7: persisting an empty hidden set removes the storage key for
`workbench.statusbar.hidden` entirely (the persisted value becomes absent,
not the encoding of `[]`); persisting a non-empty set stores the list of its
members. -/
theorem saveState_removes_key_when_empty (s : StatusbarViewModel) :
    (s.saveState).storage.hiddenEntries
        = (if s.hidden.isEmpty then none else some s.hidden) ∧
    (s.saveState).hidden = s.hidden ∧
    (s.saveState).entries = s.entries :=
  ⟨saveState_hiddenEntries s, saveState_hidden s, saveState_entries s⟩

/-- The view model used to refute the duplicate-collapsing claim: two
registered entries sharing the identifier `"a"`. -/
def vmDuplicateIds : StatusbarViewModel :=
  { entries := [⟨"a", "Item A1", StatusbarAlignment.LEFT, 0, 0⟩,
                ⟨"a", "Item A2", StatusbarAlignment.LEFT, 0, 1⟩]
    hidden := []
    storage := ⟨none, 0⟩
    visible := fun _ => true }

/-- C2 (refuted — code bug): `getContextMenuActions` never inserts into
`handledEntries`, so two entries sharing the id `"a"` produce two
toggle-visibility actions, not one, contradicting both the specification and
the comment in the source ("we make sure to only show a single entry per
identifier we handled"). -/
theorem getContextMenuActions_duplicates_not_collapsed :
    getContextMenuActions vmDuplicateIds none
      = [ContextMenuAction.toggleEntryVisibility "a" "Item A1",
         ContextMenuAction.toggleEntryVisibility "a" "Item A2",
         ContextMenuAction.separator,
         ContextMenuAction.toggleStatusbarVisibility] ∧
    ((getContextMenuActions vmDuplicateIds none).countP
      (fun act => match act with
        | ContextMenuAction.toggleEntryVisibility id _ => id == "a"
        | _ => false)) = 2 := by
  constructor <;> rfl

end Statusbar

namespace GotoError

/-- Following the specification's wording: the number of message lines is
the number of lines of the message, plus one separator line if related
information is non-empty, plus one line per related-information entry. -/
def specNumberOfMessageLines (marker : IMarker) : Nat :=
  (splitMessageLines marker.message.data).length +
    (if isNonEmptyArray marker.relatedInformation then
      1 + (marker.relatedInformation.getD []).length
    else 0)

/-- C5: for every marker, the marker widget's required height in lines is
`3 + min(17, numberOfMessageLines)`; a one-line message without related
information yields `4`, and a 20-line message yields `20`. -/
theorem computeRequiredHeight_spec :
    (∀ (w : MessageWidget) (marker : IMarker),
      computeRequiredHeight (w.update marker)
        = 3 + min 17 (specNumberOfMessageLines marker)) ∧
    computeRequiredHeight (MessageWidget.update ⟨0, 0⟩
      ⟨MarkerSeverity.Error, "m", none, none, none⟩) = 4 ∧
    computeRequiredHeight (MessageWidget.update ⟨0, 0⟩
      ⟨MarkerSeverity.Error,
       "1\n2\n3\n4\n5\n6\n7\n8\n9\n10\n11\n12\n13\n14\n15\n16\n17\n18\n19\n20",
       none, none, none⟩) = 20 := by
  refine ⟨?_, by decide, by decide⟩
  intro w marker
  unfold computeRequiredHeight MessageWidget.getHeightInLines MessageWidget.update
    specNumberOfMessageLines
  cases h : isNonEmptyArray marker.relatedInformation
  · simp [h]
  · simp [h]
    omega

/-- C9: the generic `show(where, heightInLines)` entry point of the marker
navigation widget always throws (`Error('call showAtMarker')`) instead of
showing the widget. -/
theorem markerNavigationWidget_show_throws (pos : Position) (heightInLines : Nat) :
    MarkerNavigationWidget.show pos heightInLines
      = Except.error "call showAtMarker" := rfl

end GotoError

namespace Statusbar

/-! ### C6 and C3: visibility round-trips of `hide`/`show` -/

theorem mem_setAdd {s : List String} {x y : String} :
    y ∈ setAdd s x ↔ y ∈ s ∨ y = x := by
  unfold setAdd
  by_cases h : x ∈ s
  · simp only [if_pos h]
    constructor
    · exact Or.inl
    · rintro (hy | rfl) <;> [exact hy; exact h]
  · simp [if_neg h]

theorem setAdd_nodup {s : List String} (hnd : s.Nodup) (x : String) :
    (setAdd s x).Nodup := by
  unfold setAdd
  by_cases h : x ∈ s
  · simpa [h]
  · rw [if_neg h]
    simp [List.nodup_append, hnd, h, List.disjoint_singleton]

/-- Unfolding of `hide` on a not-yet-hidden id. -/
theorem hide_eq_of_not_mem {s : StatusbarViewModel} {id : String} (h : id ∉ s.hidden) :
    s.hide id
      = (updateVisibilityId { s with hidden := s.hidden ++ [id] } id).saveState := by
  unfold StatusbarViewModel.hide
  rw [if_neg (by simp [h])]
  unfold setAdd
  rw [if_neg h]

/-- Unfolding of `show` on a hidden id. -/
theorem showId_eq_of_mem {s : StatusbarViewModel} {id : String} (h : id ∈ s.hidden) :
    s.showId id
      = (updateVisibilityId { s with hidden := s.hidden.erase id } id).saveState := by
  unfold StatusbarViewModel.showId
  rw [if_pos (by simp [h])]

theorem hide_entries (s : StatusbarViewModel) (id : String) :
    (s.hide id).entries = s.entries := by
  by_cases h : id ∈ s.hidden
  · unfold StatusbarViewModel.hide
    rw [if_pos (by simp [h])]
  · rw [hide_eq_of_not_mem h, saveState_entries, updateVisibilityId_entries]

theorem showId_entries (s : StatusbarViewModel) (id : String) :
    (s.showId id).entries = s.entries := by
  by_cases h : id ∈ s.hidden
  · rw [showId_eq_of_mem h, saveState_entries, updateVisibilityId_entries]
  · unfold StatusbarViewModel.showId
    rw [if_neg (by simp [h])]

/-- After `show(id)` from a duplicate-free state, every entry carrying that
id has a CSS-visible container. -/
theorem showId_visible_of_mem {s : StatusbarViewModel} {id : String}
    (h : id ∈ s.hidden) (hner : id ∉ s.hidden.erase id)
    {e : IStatusbarViewModelEntry} (he : e ∈ s.entries) (hid : e.id = id) :
    (s.showId id).visible e.container = true := by
  rw [showId_eq_of_mem h, saveState_visible]
  rw [updateVisibilityId_visible]
  rw [if_pos]
  · simp [hner]
  · simp only [updateVisibilityId_entries]
    exact List.mem_map.mpr ⟨e, List.mem_filter.mpr ⟨he, by simp [hid]⟩, rfl⟩

/-- C6: visibility is keyed by identifier, not by entry instance — after
hiding all entries with a given id (via `hide(id)`) and then calling
`show(id)` once, every entry with that id has a CSS-visible container. -/
theorem show_makes_all_instances_visible (s : StatusbarViewModel) (id : String)
    (hnd : s.hidden.Nodup) :
    ∀ e ∈ ((s.hide id).showId id).entries, e.id = id →
      ((s.hide id).showId id).visible e.container = true := by
  intro e he hid
  rw [showId_entries, hide_entries] at he
  have h1 : id ∈ (s.hide id).hidden := by
    rw [hide_hidden]
    exact mem_setAdd.mpr (Or.inr rfl)
  have h2 : (s.hide id).hidden.Nodup := by
    rw [hide_hidden]
    exact setAdd_nodup hnd id
  have h3 : id ∉ (s.hide id).hidden.erase id := by
    intro hmem
    exact ((List.Nodup.mem_erase_iff h2).mp hmem).1 rfl
  exact showId_visible_of_mem h1 h3 (by rw [hide_entries] at *; exact he) hid

/-- Two entries sharing the id `"x"`, both visible, nothing hidden. -/
def twoInstanceState : StatusbarViewModel :=
  ⟨[⟨"x", "X1", StatusbarAlignment.LEFT, 0, 0⟩,
    ⟨"x", "X2", StatusbarAlignment.LEFT, 0, 1⟩], [], ⟨none, 0⟩, fun _ => true⟩

/-- Witness for `show_makes_all_instances_visible`: both instances of `"x"`
are visible again after `hide("x")` then `show("x")`. -/
theorem show_makes_all_instances_visible_witness :
    ((twoInstanceState.hide "x").showId "x").visible 0 = true ∧
    ((twoInstanceState.hide "x").showId "x").visible 1 = true :=
  ⟨show_makes_all_instances_visible twoInstanceState "x" (by decide)
      ⟨"x", "X1", StatusbarAlignment.LEFT, 0, 0⟩
      (by rw [showId_entries, hide_entries]; decide) rfl,
   show_makes_all_instances_visible twoInstanceState "x" (by decide)
      ⟨"x", "X2", StatusbarAlignment.LEFT, 0, 1⟩
      (by rw [showId_entries, hide_entries]; decide) rfl⟩

/-- A state in which the single entry (id `"a"`) is already hidden, with the
persisted value and CSS visibility in sync. -/
def hiddenEntryState : StatusbarViewModel :=
  ⟨[⟨"a", "A", StatusbarAlignment.LEFT, 0, 0⟩], ["a"], ⟨some ["a"], 0⟩, fun _ => false⟩

/-- C3 counterexample: when the id is already hidden, `hide(id)` is a no-op
but `show(id)` is not, so the pair does not restore the prior state: the
entry becomes visible (it was hidden) and the persisted key is removed (it
held `["a"]`). -/
theorem hide_show_not_roundtrip_on_hidden_id :
    ((hiddenEntryState.hide "a").showId "a").visible 0 = true ∧
    hiddenEntryState.visible 0 = false ∧
    ((hiddenEntryState.hide "a").showId "a").storage.hiddenEntries = none ∧
    hiddenEntryState.storage.hiddenEntries = some ["a"] := by
  refine ⟨?_, rfl, ?_, rfl⟩ <;> decide

/-- C3 (amended): for an id that is not currently hidden, starting from a
state whose CSS visibility and persisted value agree with the in-memory
hidden set, `hide(id)` followed by `show(id)` restores every container's
visibility, the hidden set, and the persisted value. -/
theorem hide_show_roundtrip (s : StatusbarViewModel) (id : String)
    (hmem : id ∉ s.hidden)
    (hvis : ∀ e ∈ s.entries, s.visible e.container = !(s.hidden.contains e.id))
    (hst : s.storage.hiddenEntries = (if s.hidden.isEmpty then none else some s.hidden)) :
    ((s.hide id).showId id).hidden = s.hidden ∧
    ((s.hide id).showId id).entries = s.entries ∧
    ((s.hide id).showId id).storage.hiddenEntries = s.storage.hiddenEntries ∧
    ∀ c : Nat, ((s.hide id).showId id).visible c = s.visible c := by
  have hAppendErase : (s.hidden ++ [id]).erase id = s.hidden := by
    rw [List.erase_append_right _ hmem]
    simp
  have h1hidden : (s.hide id).hidden = s.hidden ++ [id] := by
    rw [hide_hidden]
    unfold setAdd
    rw [if_neg hmem]
  have hmem1 : id ∈ (s.hide id).hidden := by
    rw [h1hidden]
    simp
  have h2hidden : ((s.hide id).showId id).hidden = s.hidden := by
    rw [showId_hidden, h1hidden, hAppendErase]
  refine ⟨h2hidden, by rw [showId_entries, hide_entries], ?_, ?_⟩
  · rw [showId_eq_of_mem hmem1, saveState_hiddenEntries]
    rw [updateVisibilityId_hidden]
    show (if ((s.hide id).hidden.erase id).isEmpty then none
        else some ((s.hide id).hidden.erase id)) = _
    rw [h1hidden, hAppendErase, hst]
  · intro c
    rw [showId_eq_of_mem hmem1, saveState_visible, updateVisibilityId_visible]
    simp only [updateVisibilityId_entries, updateVisibilityId_hidden]
    simp only [hide_entries, h1hidden, hAppendErase]
    by_cases hc : c ∈ (List.map (fun e => e.container)
        (List.filter (fun e => decide (e.id = id)) s.entries))
    · rw [if_pos hc]
      obtain ⟨e, hef, hec⟩ := List.mem_map.mp hc
      obtain ⟨hes, heid⟩ := List.mem_filter.mp hef
      have heid' : e.id = id := by simpa using heid
      rw [← hec, hvis e hes, heid']
    · rw [if_neg hc]
      rw [hide_eq_of_not_mem hmem, saveState_visible, updateVisibilityId_visible]
      simp only [updateVisibilityId_entries]
      rw [if_neg (by simpa using hc)]

/-- A consistent state with one visible entry and nothing hidden. -/
def visibleEntryState : StatusbarViewModel :=
  ⟨[⟨"a", "A", StatusbarAlignment.LEFT, 0, 0⟩], [], ⟨none, 0⟩, fun _ => true⟩

/-- Witness for `hide_show_roundtrip` at a concrete consistent state. -/
theorem hide_show_roundtrip_witness :
    ((visibleEntryState.hide "a").showId "a").hidden = visibleEntryState.hidden ∧
    ((visibleEntryState.hide "a").showId "a").storage.hiddenEntries
      = visibleEntryState.storage.hiddenEntries ∧
    ((visibleEntryState.hide "a").showId "a").visible 0 = visibleEntryState.visible 0 :=
  have h := hide_show_roundtrip visibleEntryState "a" (by decide) (by decide) (by decide)
  ⟨h.1, h.2.2.1, h.2.2.2 0⟩

end Statusbar

namespace Statusbar

/-! ### C4: reconciliation of external storage changes -/

theorem mem_foldl_setAdd (l : List String) (acc : List String) (a : String) :
    a ∈ l.foldl setAdd acc ↔ a ∈ acc ∨ a ∈ l := by
  induction l generalizing acc with
  | nil => simp
  | cons x xs ih =>
    rw [List.foldl_cons, ih, mem_setAdd, List.mem_cons]
    tauto

theorem nodup_foldl_setAdd (l : List String) {acc : List String} (h : acc.Nodup) :
    (l.foldl setAdd acc).Nodup := by
  induction l generalizing acc with
  | nil => exact h
  | cons x xs ih => exact ih (setAdd_nodup h x)

theorem reconcileFold_proj (l : List IStatusbarViewModelEntry)
    (acc : StatusbarViewModel) (ch : List String) :
    ((l.foldl (fun (acc : StatusbarViewModel × List String) e =>
        if acc.2.contains e.id then (updateVisibilityId acc.1 e.id, acc.2.erase e.id)
        else acc) (acc, ch)).1.entries = acc.entries) ∧
    ((l.foldl (fun (acc : StatusbarViewModel × List String) e =>
        if acc.2.contains e.id then (updateVisibilityId acc.1 e.id, acc.2.erase e.id)
        else acc) (acc, ch)).1.hidden = acc.hidden) ∧
    ((l.foldl (fun (acc : StatusbarViewModel × List String) e =>
        if acc.2.contains e.id then (updateVisibilityId acc.1 e.id, acc.2.erase e.id)
        else acc) (acc, ch)).1.storage = acc.storage) := by
  induction l generalizing acc ch with
  | nil => exact ⟨rfl, rfl, rfl⟩
  | cons f l ih =>
    rw [List.foldl_cons]
    by_cases hcf : ch.contains f.id = true
    · rw [if_pos hcf]
      obtain ⟨a, b, c⟩ := ih (updateVisibilityId acc f.id) (ch.erase f.id)
      refine ⟨?_, ?_, ?_⟩
      · rw [a, updateVisibilityId_entries]
      · rw [b, updateVisibilityId_hidden]
      · rw [c, updateVisibilityId_storage]
    · rw [if_neg hcf]
      exact ih acc ch

theorem reconcileFold_visible (l : List IStatusbarViewModelEntry)
    (acc : StatusbarViewModel) (ch : List String)
    (hnd : ch.Nodup) (e : IStatusbarViewModelEntry) (he : e ∈ acc.entries)
    (uniq : ∀ f ∈ acc.entries, f.container = e.container → f.id = e.id) :
    (l.foldl (fun (acc : StatusbarViewModel × List String) e =>
        if acc.2.contains e.id then (updateVisibilityId acc.1 e.id, acc.2.erase e.id)
        else acc) (acc, ch)).1.visible e.container
      = if e.id ∈ ch ∧ e.id ∈ l.map (fun f => f.id) then !(acc.hidden.contains e.id)
        else acc.visible e.container := by
  induction l generalizing acc ch with
  | nil => simp
  | cons f l ih =>
    rw [List.foldl_cons]
    by_cases hcf : ch.contains f.id = true
    · rw [if_pos hcf]
      have he' : e ∈ (updateVisibilityId acc f.id).entries := by
        rw [updateVisibilityId_entries]; exact he
      have uniq' : ∀ g ∈ (updateVisibilityId acc f.id).entries,
          g.container = e.container → g.id = e.id := by
        rw [updateVisibilityId_entries]; exact uniq
      rw [ih (updateVisibilityId acc f.id) (ch.erase f.id) (hnd.erase f.id) he' uniq']
      rw [updateVisibilityId_hidden]
      by_cases hef : e.id = f.id
      · have hne : e.id ∉ ch.erase f.id := by
          intro hmem
          exact ((List.Nodup.mem_erase_iff hnd).mp hmem).1 hef
        rw [if_neg (fun hand => hne hand.1)]
        rw [updateVisibilityId_visible]
        rw [if_pos (List.mem_map.mpr
          ⟨e, List.mem_filter.mpr ⟨he, by simp [hef]⟩, rfl⟩)]
        have hmemch : e.id ∈ ch := by rw [hef]; simpa using hcf
        rw [if_pos ⟨hmemch, by rw [List.map_cons, hef]; exact List.mem_cons_self _ _⟩, hef]
      · have hch : e.id ∈ ch.erase f.id ↔ e.id ∈ ch := List.mem_erase_of_ne hef
        have hvis : (updateVisibilityId acc f.id).visible e.container
            = acc.visible e.container := by
          rw [updateVisibilityId_visible]
          rw [if_neg]
          intro hmem
          obtain ⟨g, hgf, hgc⟩ := List.mem_map.mp hmem
          obtain ⟨hg, hgid⟩ := List.mem_filter.mp hgf
          exact hef ((uniq g hg hgc).symm.trans (by simpa using hgid))
        by_cases hcond : e.id ∈ ch ∧ e.id ∈ l.map (fun f => f.id)
        · rw [if_pos ⟨hch.mpr hcond.1, hcond.2⟩,
            if_pos ⟨hcond.1, by simp [hcond.2]⟩]
        · rw [if_neg (fun hand => hcond ⟨hch.mp hand.1, hand.2⟩), hvis]
          rw [if_neg]
          intro hand
          rcases List.mem_map.mp hand.2 with ⟨g, hgmem, hgid⟩
          rcases List.mem_cons.mp hgmem with rfl | hgl
          · exact hef hgid.symm
          · exact hcond ⟨hand.1, List.mem_map.mpr ⟨g, hgl, hgid⟩⟩
    · rw [if_neg hcf]
      rw [ih acc ch hnd he uniq]
      by_cases hech : e.id ∈ ch
      · have hef : ¬e.id = f.id := by
          intro hef
          exact hcf (by simp [← hef, hech])
        by_cases hl : e.id ∈ l.map (fun f => f.id)
        · rw [if_pos ⟨hech, hl⟩, if_pos ⟨hech, by simp [hl]⟩]
        · rw [if_neg (fun hand => hl hand.2), if_neg]
          intro hand
          rcases List.mem_map.mp hand.2 with ⟨g, hgmem, hgid⟩
          rcases List.mem_cons.mp hgmem with rfl | hgl
          · exact hef hgid.symm
          · exact hl (List.mem_map.mpr ⟨g, hgl, hgid⟩)
      · rw [if_neg (fun hand => hech hand.1), if_neg (fun hand => hech hand.1)]

end Statusbar

namespace Statusbar

/-- C4: when the storage-change notification fires for the persisted
hidden-entries key in global scope, the view model reloads the hidden set
from storage and updates visibility for exactly the identifiers whose
membership changed: entries whose id kept its membership keep their CSS
state untouched, entries whose id changed membership are re-shown/re-hidden
according to the newly loaded set. (Entries sharing a container must share
an id — DOM containers are per-entry.) -/
theorem onDidStorageChange_reconciles (s : StatusbarViewModel)
    (event : IWorkspaceStorageChangeEvent)
    (hkey : event.key = HIDDEN_ENTRIES_KEY) (hscope : event.scope = StorageScope.GLOBAL)
    (uniq : ∀ e ∈ s.entries, ∀ f ∈ s.entries, f.container = e.container → f.id = e.id) :
    (s.onDidStorageChange event).entries = s.entries ∧
    (s.onDidStorageChange event).hidden = restoreState s.storage ∧
    (s.onDidStorageChange event).storage = s.storage ∧
    ∀ e ∈ s.entries,
      ((e.id ∈ s.hidden ↔ e.id ∈ restoreState s.storage) →
        (s.onDidStorageChange event).visible e.container = s.visible e.container) ∧
      (¬(e.id ∈ s.hidden ↔ e.id ∈ restoreState s.storage) →
        (s.onDidStorageChange event).visible e.container
          = !((restoreState s.storage).contains e.id)) := by
  have hbody : s.onDidStorageChange event =
      (if (((s.hidden.filter (fun id => !((restoreState s.storage).contains id))) ++
            ((restoreState s.storage).filter (fun id => !(s.hidden.contains id)))).foldl
              setAdd []).length > 0
       then
         (({ s with hidden := restoreState s.storage } : StatusbarViewModel).entries.foldl
           (fun (acc : StatusbarViewModel × List String) e =>
             if acc.2.contains e.id then (updateVisibilityId acc.1 e.id, acc.2.erase e.id)
             else acc)
           ({ s with hidden := restoreState s.storage },
            ((s.hidden.filter (fun id => !((restoreState s.storage).contains id))) ++
             ((restoreState s.storage).filter (fun id => !(s.hidden.contains id)))).foldl
               setAdd [])).1
       else { s with hidden := restoreState s.storage }) := by
    unfold StatusbarViewModel.onDidStorageChange
    rw [if_pos ⟨hkey, hscope⟩]
  rw [hbody]
  set changed : List String :=
    ((s.hidden.filter (fun id => !((restoreState s.storage).contains id))) ++
      ((restoreState s.storage).filter (fun id => !(s.hidden.contains id)))).foldl
        setAdd [] with hchanged
  have hchNodup : changed.Nodup := by
    rw [hchanged]
    exact nodup_foldl_setAdd _ List.nodup_nil
  have hchMem : ∀ a : String,
      a ∈ changed ↔ ¬(a ∈ s.hidden ↔ a ∈ restoreState s.storage) := by
    intro a
    rw [hchanged, mem_foldl_setAdd]
    simp
    tauto
  by_cases hlen : changed.length > 0
  · rw [if_pos hlen]
    obtain ⟨hE, hH, hS⟩ := reconcileFold_proj
      ({ s with hidden := restoreState s.storage } : StatusbarViewModel).entries
      { s with hidden := restoreState s.storage } changed
    refine ⟨hE, hH, hS, ?_⟩
    intro e he
    have he' : e ∈ ({ s with hidden := restoreState s.storage } :
        StatusbarViewModel).entries := he
    have uniq' : ∀ f ∈ ({ s with hidden := restoreState s.storage } :
        StatusbarViewModel).entries, f.container = e.container → f.id = e.id :=
      uniq e he
    constructor
    · intro hiff
      rw [reconcileFold_visible _ _ changed hchNodup e he' uniq']
      rw [if_neg (fun hand => (hchMem e.id).mp hand.1 hiff)]
    · intro hniff
      rw [reconcileFold_visible _ _ changed hchNodup e he' uniq']
      rw [if_pos ⟨(hchMem e.id).mpr hniff, List.mem_map.mpr ⟨e, he', rfl⟩⟩]
  · rw [if_neg hlen]
    refine ⟨rfl, rfl, rfl, ?_⟩
    intro e he
    refine ⟨fun _ => rfl, fun hniff => ?_⟩
    exfalso
    have hmem : e.id ∈ changed := (hchMem e.id).mpr hniff
    have hnil : changed = [] := List.eq_nil_of_length_eq_zero (by omega)
    rw [hnil] at hmem
    exact List.not_mem_nil e.id hmem

end Statusbar

namespace Statusbar

/-- The specification's reconciliation scenario: in-memory hidden `{A,B}`,
persisted hidden replaced by `{B,C}`; A and B are CSS-hidden, C visible. -/
def reconcileState : StatusbarViewModel :=
  ⟨[⟨"A", "A", StatusbarAlignment.LEFT, 0, 0⟩,
    ⟨"B", "B", StatusbarAlignment.LEFT, 0, 1⟩,
    ⟨"C", "C", StatusbarAlignment.LEFT, 0, 2⟩],
   ["A", "B"], ⟨some ["B", "C"], 0⟩,
   fun c => if c = 0 then false else if c = 1 then false else true⟩

/-- The storage-change notification for the persisted hidden-entries key. -/
def reconcileEvent : IWorkspaceStorageChangeEvent :=
  ⟨"workbench.statusbar.hidden", StorageScope.GLOBAL⟩

/-- Witness for `onDidStorageChange_reconciles` at the specification's
scenario: visibility is toggled for exactly A (now shown) and C (now
hidden); B is untouched. -/
theorem onDidStorageChange_reconciles_witness :
    (reconcileState.onDidStorageChange reconcileEvent).visible 0 = true ∧
    (reconcileState.onDidStorageChange reconcileEvent).visible 1
      = reconcileState.visible 1 ∧
    (reconcileState.onDidStorageChange reconcileEvent).visible 2 = false := by
  have h := onDidStorageChange_reconciles reconcileState reconcileEvent rfl rfl (by decide)
  refine ⟨?_, ?_, ?_⟩
  · have hA := (h.2.2.2 ⟨"A", "A", StatusbarAlignment.LEFT, 0, 0⟩ (by decide)).2 (by decide)
    rw [hA]
    decide
  · exact (h.2.2.2 ⟨"B", "B", StatusbarAlignment.LEFT, 0, 1⟩ (by decide)).1 (by decide)
  · have hC := (h.2.2.2 ⟨"C", "C", StatusbarAlignment.LEFT, 0, 2⟩ (by decide)).2 (by decide)
    rw [hC]
    decide

end Statusbar

namespace Statusbar

/-! ### C8: disposal of pending entries before materialization -/

theorem mem_sortEntries {a : IStatusbarViewModelEntry} {l : List IStatusbarViewModelEntry} :
    a ∈ sortEntries l ↔ a ∈ l :=
  List.mem_mergeSort

theorem add_entries (s : StatusbarViewModel) (entry : IStatusbarViewModelEntry) :
    (s.add entry).entries = sortEntries (s.entries ++ [entry]) := rfl

theorem mem_add_entries {s : StatusbarViewModel} {entry e : IStatusbarViewModelEntry} :
    e ∈ (s.add entry).entries ↔ e ∈ s.entries ∨ e = entry := by
  rw [add_entries, mem_sortEntries, List.mem_append, List.mem_singleton]

theorem doAddEntry_element (st : PartState) (id name : String)
    (alignment : StatusbarAlignment) (priority : Int) :
    (doAddEntry st id name alignment priority).element = st.element := rfl

theorem doAddEntry_pendingEntries (st : PartState) (id name : String)
    (alignment : StatusbarAlignment) (priority : Int) :
    (doAddEntry st id name alignment priority).pendingEntries = st.pendingEntries := rfl

theorem mem_doAddEntry_vm {st : PartState} {id name : String}
    {alignment : StatusbarAlignment} {priority : Int} {e : IStatusbarViewModelEntry} :
    e ∈ (doAddEntry st id name alignment priority).viewModel.entries ↔
      e ∈ st.viewModel.entries ∨ e = ⟨id, name, alignment, priority, st.nextContainer⟩ :=
  mem_add_entries

theorem addEntry_of_element (st : PartState) (hel : st.element = true)
    (entry : IStatusbarEntry) (id name : String) (alignment : StatusbarAlignment)
    (priority : Int) :
    st.addEntry entry id name alignment priority = doAddEntry st id name alignment priority := by
  unfold PartState.addEntry
  rw [hel]
  rfl

/-- The registry loop of `createInitialStatusbarEntries` keeps `element` and
the pending queue, and only adds entries carrying registry ids. -/
theorem registryFold_spec (items : List RegistryItem) (st : PartState)
    (P : String → Prop)
    (h1 : ∀ e ∈ st.viewModel.entries, P e.id) (h2 : ∀ it ∈ items, P it.id) :
    ((items.foldl
        (fun acc item => doAddEntry acc item.id item.name item.alignment item.priority)
        st).element = st.element) ∧
    ((items.foldl
        (fun acc item => doAddEntry acc item.id item.name item.alignment item.priority)
        st).pendingEntries = st.pendingEntries) ∧
    (∀ e ∈ (items.foldl
        (fun acc item => doAddEntry acc item.id item.name item.alignment item.priority)
        st).viewModel.entries, P e.id) := by
  induction items generalizing st with
  | nil => exact ⟨rfl, rfl, h1⟩
  | cons it items ih =>
    rw [List.foldl_cons]
    refine ih (doAddEntry st it.id it.name it.alignment it.priority) ?_
      (fun x hx => h2 x (List.mem_cons_of_mem it hx))
    intro e he
    rcases mem_doAddEntry_vm.mp he with he' | rfl
    · exact h1 e he'
    · exact h2 it (List.mem_cons_self it items)

/-- The pending-drain loop of `createInitialStatusbarEntries` only realizes
entries carrying ids of the drained pending records. -/
theorem drainPending_spec (l : List IPendingStatusbarEntry) (st : PartState)
    (hel : st.element = true) (P : String → Prop)
    (h1 : ∀ e ∈ st.viewModel.entries, P e.id) (h2 : ∀ p ∈ l, P p.id) :
    ∀ e ∈ (drainPendingEntries l st).viewModel.entries, P e.id := by
  induction l generalizing st with
  | nil => exact h1
  | cons p rest ih =>
    unfold drainPendingEntries
    rw [addEntry_of_element _ (by exact hel)]
    refine ih _ (by exact hel) ?_ (fun x hx => h2 x (List.mem_cons_of_mem p hx))
    intro e he
    rcases mem_doAddEntry_vm.mp he with he' | rfl
    · exact h1 e he'
    · exact h2 p (List.mem_cons_self p rest)

/-- C8: an entry queued while the status-bar container does not yet exist
and disposed before the container is created is removed from the pending
queue and never appears among the realized view-model entries once the
container is created. (The disposed record's id must not also be registered
by other pending records, registry items, or already-realized entries —
otherwise those independently contribute entries with the same id.) -/
theorem disposed_pending_never_realized (st : PartState)
    (registryItems : List RegistryItem) (p : IPendingStatusbarEntry)
    (_hel : st.element = false) (_hp : p ∈ st.pendingEntries)
    (hpend : ∀ q ∈ st.pendingEntries, q.token ≠ p.token → q.id ≠ p.id)
    (hreg : ∀ it ∈ registryItems, it.id ≠ p.id)
    (hvm : ∀ e ∈ st.viewModel.entries, e.id ≠ p.id) :
    ((disposePendingAccessor st p.token).pendingEntries.all
        (fun q => q.token ≠ p.token)) = true ∧
    ∀ e ∈ (createContentArea (disposePendingAccessor st p.token)
        registryItems).viewModel.entries, e.id ≠ p.id := by
  constructor
  · rw [List.all_eq_true]
    intro q hq
    have := List.of_mem_filter hq
    simpa using this
  · unfold createContentArea createInitialStatusbarEntries
    obtain ⟨hE, hPend, hVM⟩ := registryFold_spec registryItems
      { disposePendingAccessor st p.token with element := true }
      (fun id => id ≠ p.id) hvm hreg
    refine drainPending_spec _ _ (by rw [hE]) (fun id => id ≠ p.id) hVM ?_
    intro q hq
    rw [hPend] at hq
    have hq' : q ∈ st.pendingEntries.filter (fun e => e.token ≠ p.token) := hq
    have hmem := List.of_mem_filter hq'
    exact hpend q (List.mem_of_mem_filter hq') (by simpa using hmem)

/-- A part state before the container exists, holding the single pending
entry `"x"` (token 0). -/
def pendingPartState : PartState :=
  { element := false
    pendingEntries := [⟨"x", "X", ⟨"payload"⟩, StatusbarAlignment.LEFT, 0, 0⟩]
    viewModel := ⟨[], [], ⟨none, 0⟩, fun _ => true⟩
    nextContainer := 0
    nextToken := 1 }

/-- Witness for `disposed_pending_never_realized`: after disposing the only
pending entry and creating the container with one registry item, no realized
entry carries the disposed id `"x"`. -/
theorem disposed_pending_never_realized_witness :
    ((disposePendingAccessor pendingPartState 0).pendingEntries.all
        (fun q => q.token ≠ 0)) = true ∧
    ∀ e ∈ (createContentArea (disposePendingAccessor pendingPartState 0)
        [⟨"r", "R", StatusbarAlignment.LEFT, 0⟩]).viewModel.entries, e.id ≠ "x" :=
  disposed_pending_never_realized pendingPartState
    [⟨"r", "R", StatusbarAlignment.LEFT, 0⟩]
    ⟨"x", "X", ⟨"payload"⟩, StatusbarAlignment.LEFT, 0, 0⟩
    rfl (by decide) (by decide) (by decide) (by decide)

end Statusbar

namespace Statusbar

/-! ### C1: ordering invariant of the entries array -/

/-- Stability and sortedness of `mergeSort` in one statement: any two
elements in sort order are related by `le`, and a tie (related both ways)
only occurs in the order the elements held in the input list. -/
theorem mergeSort_stable_positions {α : Type} (le : α → α → Bool)
    (htrans : ∀ a b c : α, le a b → le b c → le a c)
    (htotal : ∀ a b : α, le a b || le b a)
    (l : List α) :
    (l.mergeSort le).Pairwise (fun x y => le x y = true ∧
      (le y x = true → ∃ i j : Nat, i < j ∧ l[i]? = some x ∧ l[j]? = some y)) := by
  have hs : (List.mergeSort l.enum (List.enumLE le)).Pairwise
      (fun a b => List.enumLE le a b = true) :=
    List.sorted_mergeSort (List.enumLE_trans htrans) (List.enumLE_total htotal) l.enum
  have hperm : List.Perm (List.mergeSort l.enum (List.enumLE le)) l.enum :=
    List.mergeSort_perm l.enum (List.enumLE le)
  have hnd : (List.mergeSort l.enum (List.enumLE le)).Nodup :=
    hperm.nodup_iff.mpr (List.Nodup.of_map Prod.fst (List.nodup_enum_map_fst l))
  have key : (List.mergeSort l.enum (List.enumLE le)).Pairwise
      (fun a b => le a.2 b.2 = true ∧ (le b.2 a.2 = true →
        ∃ i j : Nat, i < j ∧ l[i]? = some a.2 ∧ l[j]? = some b.2)) := by
    refine List.Pairwise.imp_of_mem ?_ (List.pairwise_and_iff.mpr ⟨hs, hnd⟩)
    rintro ⟨i, x⟩ ⟨j, y⟩ ha hb ⟨hle, hne⟩
    have ga : l[i]? = some x := by
      have := List.mem_mergeSort.mp ha
      simpa using List.mk_mem_enum_iff_getElem?.mp this
    have gb : l[j]? = some y := by
      have := List.mem_mergeSort.mp hb
      simpa using List.mk_mem_enum_iff_getElem?.mp this
    have hxy : le x y = true := by
      by_cases h : le x y = true
      · exact h
      · simp [List.enumLE, h] at hle
    refine ⟨hxy, fun hyx => ?_⟩
    have hij : i ≤ j := by
      simp [List.enumLE, hxy, hyx] at hle
      exact hle
    have hne' : i ≠ j := by
      rintro rfl
      apply hne
      have : some x = some y := ga.symm.trans gb
      simp_all
    exact ⟨i, j, Nat.lt_of_le_of_ne hij hne', ga, gb⟩
  have final : ((List.mergeSort l.enum (List.enumLE le)).map (fun p => p.2)).Pairwise
      (fun x y => le x y = true ∧ (le y x = true →
        ∃ i j : Nat, i < j ∧ l[i]? = some x ∧ l[j]? = some y)) :=
    List.pairwise_map.mpr key
  rwa [List.mergeSort_enum] at final

theorem entryLe_total : ∀ a b : IStatusbarViewModelEntry, entryLe a b || entryLe b a := by
  intro a b
  unfold entryLe compareEntries
  cases ha : a.alignment <;> cases hb : b.alignment <;>
    simp [ha, hb] <;> omega

theorem entryLe_trans : ∀ a b c : IStatusbarViewModelEntry,
    entryLe a b → entryLe b c → entryLe a c := by
  intro a b c
  unfold entryLe compareEntries
  cases ha : a.alignment <;> cases hb : b.alignment <;> cases hc : c.alignment <;>
    simp [ha, hb] <;> omega

/-- The operations the claim quantifies over. -/
inductive VMOp where
  | add (entry : IStatusbarViewModelEntry)
  | remove (entry : IStatusbarViewModelEntry)

def applyOp (s : StatusbarViewModel) : VMOp → StatusbarViewModel
  | VMOp.add e => s.add e
  | VMOp.remove e => s.remove e

def applyOps (s : StatusbarViewModel) (ops : List VMOp) : StatusbarViewModel :=
  ops.foldl applyOp s

/-- The entries added by a sequence of operations, in insertion order. -/
def addsOf : List VMOp → List IStatusbarViewModelEntry
  | [] => []
  | VMOp.add e :: rest => e :: addsOf rest
  | VMOp.remove _ :: rest => addsOf rest

/-- Relation: `x` was inserted strictly before `y` in the insertion sequence `adds`. -/
def insBefore (adds : List IStatusbarViewModelEntry)
    (x y : IStatusbarViewModelEntry) : Prop :=
  ∃ i j : Nat, i < j ∧ adds[i]? = some x ∧ adds[j]? = some y

/-- The ordering invariant relation: `x` may precede `y` under the
comparator, and if they compare equal then `x` was inserted first. -/
def GoodOrder (adds : List IStatusbarViewModelEntry)
    (x y : IStatusbarViewModelEntry) : Prop :=
  entryLe x y = true ∧ (entryLe y x = true → insBefore adds x y)

/-- Invariant of the view model relative to the insertion sequence. -/
def VMInv (s : StatusbarViewModel) (adds : List IStatusbarViewModelEntry) : Prop :=
  s.entries.Pairwise (GoodOrder adds) ∧ ∀ e ∈ s.entries, e ∈ adds

theorem insBefore_mono {adds more : List IStatusbarViewModelEntry}
    {x y : IStatusbarViewModelEntry} (h : insBefore adds x y) :
    insBefore (adds ++ more) x y := by
  obtain ⟨i, j, hij, hx, hy⟩ := h
  have hi : i < adds.length := (List.getElem?_eq_some_iff.mp hx).1
  have hj : j < adds.length := (List.getElem?_eq_some_iff.mp hy).1
  exact ⟨i, j, hij, by rw [List.getElem?_append_left hi]; exact hx,
    by rw [List.getElem?_append_left hj]; exact hy⟩

theorem VMInv.mono {s : StatusbarViewModel} {adds more : List IStatusbarViewModelEntry}
    (h : VMInv s adds) : VMInv s (adds ++ more) :=
  ⟨h.1.imp (fun hg => ⟨hg.1, fun hyx => insBefore_mono (hg.2 hyx)⟩),
   fun e he => List.mem_append_left _ (h.2 e he)⟩

theorem inv_add {s : StatusbarViewModel} {adds : List IStatusbarViewModelEntry}
    (h : VMInv s adds) (e : IStatusbarViewModelEntry) :
    VMInv (s.add e) (adds ++ [e]) := by
  obtain ⟨hpw, hmem⟩ := h
  constructor
  · rw [add_entries]
    have hT : (s.entries ++ [e]).Pairwise
        (fun x y => entryLe y x = true → insBefore (adds ++ [e]) x y) := by
      rw [List.pairwise_append]
      refine ⟨hpw.imp (fun hg hyx => insBefore_mono (hg.2 hyx)), by simp, ?_⟩
      intro x hx y hy _
      rcases List.mem_singleton.mp hy with rfl
      obtain ⟨i, hi⟩ := List.mem_iff_getElem?.mp (hmem x hx)
      have hilt : i < adds.length := (List.getElem?_eq_some_iff.mp hi).1
      exact ⟨i, adds.length, hilt,
        by rw [List.getElem?_append_left hilt]; exact hi,
        by rw [List.getElem?_concat_length]⟩
    have hstable := mergeSort_stable_positions entryLe entryLe_trans entryLe_total
      (s.entries ++ [e])
    refine hstable.imp ?_
    rintro x y ⟨h1, h2⟩
    refine ⟨h1, fun hyx => ?_⟩
    obtain ⟨i, j, hij, hx, hy⟩ := h2 hyx
    obtain ⟨hilt, hxi⟩ := List.getElem?_eq_some_iff.mp hx
    obtain ⟨hjlt, hyj⟩ := List.getElem?_eq_some_iff.mp hy
    have := List.pairwise_iff_getElem.mp hT i j hilt hjlt hij
    rw [hxi, hyj] at this
    exact this hyx
  · intro x hx
    rcases mem_add_entries.mp hx with hx' | rfl
    · exact List.mem_append_left _ (hmem x hx')
    · exact List.mem_append_right _ (List.mem_singleton.mpr rfl)

theorem inv_remove {s : StatusbarViewModel} {adds : List IStatusbarViewModelEntry}
    (h : VMInv s adds) (e : IStatusbarViewModelEntry) :
    VMInv (s.remove e) adds :=
  ⟨List.Pairwise.sublist (List.erase_sublist e s.entries) h.1,
   fun x hx => h.2 x ((List.erase_sublist e s.entries).subset hx)⟩

theorem inv_applyOps : ∀ (ops : List VMOp) (s : StatusbarViewModel)
    (adds : List IStatusbarViewModelEntry),
    VMInv s adds → VMInv (applyOps s ops) (adds ++ addsOf ops)
  | [], s, adds, h => by simpa [applyOps, addsOf] using h
  | VMOp.add e :: rest, s, adds, h => by
    have h2 := inv_applyOps rest (s.add e) (adds ++ [e]) (inv_add h e)
    simpa [applyOps, addsOf, List.append_assoc] using h2
  | VMOp.remove e :: rest, s, adds, h => by
    have h2 := inv_applyOps rest (s.remove e) adds (inv_remove h e)
    simpa [applyOps, addsOf] using h2

/-- C1: starting from a freshly constructed view model, after any sequence
of `add` and `remove` operations, `getEntries(alignment)` returns exactly
the current entries of that alignment, pairwise ordered by strictly
descending priority with ties in insertion order. -/
theorem getEntries_sorted_stable (st0 : Storage) (ops : List VMOp)
    (alignment : StatusbarAlignment) :
    (∀ e, e ∈ (applyOps (StatusbarViewModel.initial st0) ops).getEntries alignment ↔
      (e ∈ (applyOps (StatusbarViewModel.initial st0) ops).entries ∧
        e.alignment = alignment)) ∧
    ((applyOps (StatusbarViewModel.initial st0) ops).getEntries alignment).Pairwise
      (fun x y => y.priority < x.priority ∨
        (y.priority = x.priority ∧ insBefore (addsOf ops) x y)) := by
  have hinv : VMInv (applyOps (StatusbarViewModel.initial st0) ops) (addsOf ops) := by
    have h0 : VMInv (StatusbarViewModel.initial st0) [] :=
      ⟨List.Pairwise.nil, by intro e he; simp [StatusbarViewModel.initial] at he⟩
    simpa using inv_applyOps ops (StatusbarViewModel.initial st0) [] h0
  obtain ⟨hpw, _⟩ := hinv
  constructor
  · intro e
    unfold StatusbarViewModel.getEntries
    simp
  · unfold StatusbarViewModel.getEntries
    have hpw2 : ((applyOps (StatusbarViewModel.initial st0) ops).entries.filter
        (fun e => decide (e.alignment = alignment))).Pairwise
          (GoodOrder (addsOf ops)) :=
      List.Pairwise.sublist (List.filter_sublist _) hpw
    refine List.Pairwise.imp_of_mem ?_ hpw2
    intro x y hx hy hgood
    have hax : x.alignment = alignment := by simpa using (List.mem_filter.mp hx).2
    have hay : y.alignment = alignment := by simpa using (List.mem_filter.mp hy).2
    have hsame : x.alignment = y.alignment := by rw [hax, hay]
    obtain ⟨h1, h2⟩ := hgood
    have hle : y.priority ≤ x.priority := by
      unfold entryLe compareEntries at h1
      rw [if_pos hsame] at h1
      have : y.priority - x.priority ≤ 0 := by simpa using h1
      omega
    rcases lt_or_eq_of_le hle with hlt | heq
    · exact Or.inl hlt
    · refine Or.inr ⟨heq, h2 ?_⟩
      unfold entryLe compareEntries
      rw [if_pos hsame.symm]
      simp only [decide_eq_true_eq]
      omega

end Statusbar
